import Mathlib

/-!
Verification of the DeepCTR layer library (`deepctr/layers.py`).

Tensors are shallowly embedded as functions out of `Fin`-indexed axes into `ℚ`
(exact rational arithmetic in place of floating point, so the algebraic
identities the code relies on can be settled exactly).  A rank-3 tensor of
shape `(batch, fields, embedding_dim)` becomes `Fin b → Fin f → Fin d → ℚ`;
an axis of static size 1 is squeezed away where the code itself treats it as
degenerate (the field axis of the `(batch, 1, embedding_size)` inputs of the
product layers).  A list of input tensors becomes a `List` of such functions.

Layers whose claims concern the *configuration* of the operations they build
(random-seed threading, exported hyperparameter dictionaries, weight
initializers) are embedded at the level of descriptors: the call/build method
is translated into the list of operation descriptors it constructs, keeping
the arguments the Python code actually passes.
-/

/-- Shallow embedding of `FM.call` (layers.py lines 32-44): square-of-sum minus
sum-of-square along the field axis, halved, then summed along the embedding
axis.  Output `(batch, 1)` is represented as one rational per batch row. -/
def FM_call (b f d : ℕ) (x : Fin b → Fin f → Fin d → ℚ) : Fin b → ℚ :=
  fun o =>
    (1/2) * ∑ k, ((∑ i, x o i k) ^ 2 - ∑ i, x o i k * x o i k)

/-- Brute-force pairwise interaction sum Σ over pairs i < j of the dot product
of field vectors i and j, by explicit double iteration (the reference
computation named by the spec). -/
def FM_bruteForce (b f d : ℕ) (x : Fin b → Fin f → Fin d → ℚ) : Fin b → ℚ :=
  fun o => ∑ i, ∑ j ∈ Finset.univ.filter (fun j => i < j), ∑ k, x o i k * x o j k

/-- The scalar identity behind FM: `(Σ v)² − Σ v² = 2 Σ_{i<j} v_i v_j`. -/
theorem sq_sum_sub_sum_sq (n : ℕ) (v : Fin n → ℚ) :
    (∑ i, v i) ^ 2 - ∑ i, v i * v i
      = 2 * ∑ i, ∑ j ∈ Finset.univ.filter (fun j => i < j), v i * v j := by
  rw [pow_two]
  have expand : (∑ i, v i) * (∑ i, v i) = ∑ i, ∑ j, v i * v j := Finset.sum_mul_sum _ _ _ _
  have tri : ∀ i j : Fin n, v i * v j =
      (if i < j then v i * v j else 0) + (if j < i then v i * v j else 0)
        + (if i = j then v i * v j else 0) := by
    intro i j
    rcases lt_trichotomy i j with h | h | h
    · simp [h, not_lt_of_gt h, Ne.symm (ne_of_lt h), ne_of_lt h]
    · simp [h, lt_irrefl]
    · simp [h, not_lt_of_gt h, ne_of_gt h]
  have step : (∑ i, ∑ j, v i * v j)
      = (∑ i : Fin n, ∑ j : Fin n, if i < j then v i * v j else 0)
        + (∑ i : Fin n, ∑ j : Fin n, if j < i then v i * v j else 0)
        + (∑ i : Fin n, ∑ j : Fin n, if i = j then v i * v j else 0) := by
    rw [← Finset.sum_add_distrib, ← Finset.sum_add_distrib]
    apply Finset.sum_congr rfl; intro i _
    rw [← Finset.sum_add_distrib, ← Finset.sum_add_distrib]
    exact Finset.sum_congr rfl (fun j _ => tri i j)
  have swap : (∑ i : Fin n, ∑ j : Fin n, if j < i then v i * v j else 0)
      = (∑ i : Fin n, ∑ j : Fin n, if i < j then v i * v j else 0) := by
    rw [Finset.sum_comm]
    apply Finset.sum_congr rfl; intro i _
    apply Finset.sum_congr rfl; intro j _
    rw [mul_comm]
  have diag : (∑ i : Fin n, ∑ j : Fin n, if i = j then v i * v j else 0) = ∑ i, v i * v i := by
    apply Finset.sum_congr rfl; intro i _
    simp
  have filt : (∑ i, ∑ j ∈ Finset.univ.filter (fun j => i < j), v i * v j)
      = ∑ i : Fin n, ∑ j : Fin n, if i < j then v i * v j else 0 :=
    Finset.sum_congr rfl (fun i _ => Finset.sum_filter _ _)
  rw [expand, step, swap, diag, filt]
  ring

/-- C1: For every rank-3 input tensor (batch, fields, embedding_dim) with
fields in {1,2,5,20} and embedding_dim in {1,4,16}, FM's forward output equals
the brute-force pairwise sum Σ_{i<j} v_i·v_j over field vectors computed by
explicit double iteration, via the identity ½[(Σv)² − Σ(v²)] summed over the
embedding axis, yielding one scalar per batch row (shape `(batch, 1)`). -/
theorem FM_call_eq_bruteForce (b f d : ℕ)
    (hf : f ∈ [1, 2, 5, 20]) (hd : d ∈ [1, 4, 16])
    (x : Fin b → Fin f → Fin d → ℚ) :
    FM_call b f d x = FM_bruteForce b f d x := by
  clear hf hd
  funext o
  show (1/2) * ∑ k, ((∑ i, x o i k) ^ 2 - ∑ i, x o i k * x o i k) = _
  have key : ∀ k : Fin d, (∑ i, x o i k) ^ 2 - ∑ i, x o i k * x o i k
      = 2 * ∑ i, ∑ j ∈ Finset.univ.filter (fun j => i < j), x o i k * x o j k :=
    fun k => sq_sum_sub_sum_sq f (fun i => x o i k)
  rw [Finset.sum_congr rfl (fun k _ => key k)]
  rw [← Finset.mul_sum, ← mul_assoc]
  norm_num
  rw [Finset.sum_comm]
  apply Finset.sum_congr rfl; intro i _
  rw [Finset.sum_comm]

/-- Witness for C1 at fields = 2, embedding_dim = 1, batch = 1, all entries 1:
the code and the brute force agree and both evaluate to the constant 1. -/
theorem FM_call_eq_bruteForce_witness :
    (2 ∈ [1, 2, 5, 20]) ∧ (1 ∈ [1, 4, 16])
      ∧ FM_call 1 2 1 (fun _ _ _ => 1) = FM_bruteForce 1 2 1 (fun _ _ _ => 1)
      ∧ FM_call 1 2 1 (fun _ _ _ => 1) = fun _ => 1 :=
  ⟨by decide, by decide,
    FM_call_eq_bruteForce 1 2 1 (by decide) (by decide) _, by
      funext o
      show (1/2) * ∑ k : Fin 1, ((∑ _i : Fin 2, (1:ℚ)) ^ 2 - ∑ _i : Fin 2, (1:ℚ) * 1) = 1
      norm_num⟩

/-- The all-zero embedding, used as the (never-reached) default when indexing
the input list of a product layer. -/
def zeroEmb (b d : ℕ) : Fin b → Fin d → ℚ := fun _ _ => 0

/-- Shallow embedding of the pair-index construction shared by
`InnerProductLayer.call`, `OutterProductLayer.call` and `AFMLayer.call`
(layers.py lines 552-555): `for i in range(num_inputs - 1): for j in
range(i + 1, num_inputs): row.append(i); col.append(j)`, rendered as the list
of `(row, col)` pairs in loop order. -/
def pairs (n : ℕ) : List (ℕ × ℕ) :=
  (List.range (n - 1)).flatMap (fun i =>
    (List.range' (i + 1) (n - (i + 1))).map (fun j => (i, j)))

/-- Modelled from the spec (§3): the canonical enumeration of the unordered
pairs `{(i,j) : i < j}` over `n` inputs, `i` ascending and then `j` ascending. -/
def canonicalPairs (n : ℕ) : List (ℕ × ℕ) :=
  (List.range n).flatMap (fun i =>
    ((List.range n).filter (fun j => decide (i < j))).map (fun j => (i, j)))

/-- Shallow embedding of `InnerProductLayer.call` with `reduce_sum = true`
(layers.py lines 541-561): gather the two embeddings of each pair in loop
order, multiply elementwise and sum over the embedding axis.  Column `m` of
the `(batch, num_pairs)` output is entry `m` of the resulting list. -/
def innerProductLayer_call (b d : ℕ) (inputs : List (Fin b → Fin d → ℚ)) :
    List (Fin b → ℚ) :=
  (pairs inputs.length).map (fun ij => fun t =>
    ∑ k, inputs.getD ij.1 (zeroEmb b d) t k * inputs.getD ij.2 (zeroEmb b d) t k)

/-- Shallow embedding of the `kernel_type == 'num'` branch of
`OutterProductLayer.call` (layers.py lines 427-486): with kernel of shape
`(num_pairs, 1)` broadcast over the embedding axis,
`kp[t][m] = Σ_k p[t][m][k] * q[t][m][k] * kernel[m]`. -/
def outterProductLayer_call_num (b d : ℕ) (inputs : List (Fin b → Fin d → ℚ))
    (kernel : List ℚ) : List (Fin b → ℚ) :=
  ((pairs inputs.length).zip kernel).map (fun pw => fun t =>
    ∑ k, inputs.getD pw.1.1 (zeroEmb b d) t k * inputs.getD pw.1.2 (zeroEmb b d) t k * pw.2)

/-- The filtered range `{j ∈ range n : i < j}` is exactly Python's
`range(i+1, n)`. -/
theorem filter_lt_range (n i : ℕ) :
    (List.range n).filter (fun j => decide (i < j)) = List.range' (i + 1) (n - (i + 1))
    := by
  induction n with
  | zero => simp
  | succ m ih =>
    rw [List.range_succ, List.filter_append]
    by_cases hm : i < m
    · rw [ih]
      have h1 : m + 1 - (i + 1) = (m - (i + 1)) + 1 := by omega
      rw [h1, List.range'_1_concat]
      simp [hm]
      omega
    · have e2 : m + 1 - (i + 1) = 0 := by omega
      have e3 : m - (i + 1) = 0 := by omega
      rw [ih, e2, e3]
      simp [hm]

/-- The loop order of the source's row/col construction is the canonical pair
order of the spec. -/
theorem pairs_eq_canonicalPairs (n : ℕ) : pairs n = canonicalPairs n := by
  cases n with
  | zero => rfl
  | succ m =>
    show pairs (m + 1) = canonicalPairs (m + 1)
    unfold pairs canonicalPairs
    simp only [filter_lt_range]
    rw [List.range_succ, List.flatMap_append]
    simp

/-- The number of pairs produced by the loop is `n * (n - 1) / 2`. -/
theorem pairs_length (n : ℕ) : (pairs n).length = n * (n - 1) / 2 := by
  cases n with
  | zero => rfl
  | succ m =>
    show (pairs (m + 1)).length = (m + 1) * m / 2
    have h2 : (pairs (m + 1)).length * 2 = (m + 1) * m := by
      unfold pairs
      rw [List.length_flatMap]
      have e1 : ((List.range (m + 1 - 1)).map
            (List.length ∘ fun i => (List.range' (i + 1) (m + 1 - (i + 1))).map (fun j => (i, j)))).sum
          = ∑ i ∈ Finset.range m, (m - i) := by
        have : (m + 1 - 1) = m := rfl
        rw [this]
        have e2 : ((List.range m).map (fun i => m - i)).sum = ∑ i ∈ Finset.range m, (m - i) := rfl
        rw [← e2]
        congr 1
        apply List.map_eq_map_iff.mpr
        intro i hi
        simp
      rw [e1]
      have e3 : (∑ i ∈ Finset.range m, (m - i)) = ∑ i ∈ Finset.range (m + 1), (m - i) := by
        rw [Finset.sum_range_succ]
        omega
      have e4 : (∑ i ∈ Finset.range (m + 1), (m - i)) = ∑ i ∈ Finset.range (m + 1), i := by
        have := Finset.sum_range_reflect (fun i => i) (m + 1)
        simpa using this
      rw [e3, e4, Finset.sum_range_id_mul_two]
      simp
    omega

/-- C2: For every list of N ≥ 2 identically shaped `(batch, 1, embedding_dim)`
inputs, `InnerProductLayer` with `reduce_sum = true` returns `N(N-1)/2` output
columns, and column `m` is the pairwise inner product of the `m`-th pair of
the canonical order (`i` ascending, then `j` ascending over pairs `i < j`);
for N = 3 the order is `[(0,1), (0,2), (1,2)]`. -/
theorem innerProductLayer_call_canonical (b d : ℕ) (inputs : List (Fin b → Fin d → ℚ))
    (h2 : 2 ≤ inputs.length) :
    (innerProductLayer_call b d inputs).length = inputs.length * (inputs.length - 1) / 2
    ∧ canonicalPairs 3 = [(0, 1), (0, 2), (1, 2)]
    ∧ ∀ m, m < (innerProductLayer_call b d inputs).length →
        (innerProductLayer_call b d inputs).getD m (fun _ => 0)
          = fun t => ∑ k,
              inputs.getD ((canonicalPairs inputs.length).getD m (0, 0)).1 (zeroEmb b d) t k
                * inputs.getD ((canonicalPairs inputs.length).getD m (0, 0)).2 (zeroEmb b d) t k
    := by
  clear h2
  refine ⟨?_, by decide, ?_⟩
  · unfold innerProductLayer_call
    rw [List.length_map, pairs_length]
  · intro m hm
    have he := pairs_eq_canonicalPairs inputs.length
    have hm1 : m < (pairs inputs.length).length := by
      simpa [innerProductLayer_call] using hm
    have hm2 : m < (canonicalPairs inputs.length).length := by
      rwa [← he]
    unfold innerProductLayer_call
    rw [he]
    rw [List.getD_eq_getElem _ _ (by simpa using hm2),
      List.getElem_map, List.getD_eq_getElem _ _ hm2]

/-- Witness for C2 on three concrete inputs with batch = embedding_dim = 1:
three output columns, and column 0 is the inner product of pair (0,1). -/
theorem innerProductLayer_call_canonical_witness :
    2 ≤ ([fun _ _ => 1, fun _ _ => 2, fun _ _ => 3] : List (Fin 1 → Fin 1 → ℚ)).length
    ∧ (innerProductLayer_call 1 1 [fun _ _ => 1, fun _ _ => 2, fun _ _ => 3]).length = 3
    ∧ (innerProductLayer_call 1 1 [fun _ _ => 1, fun _ _ => 2, fun _ _ => 3]).getD 0 (fun _ => 0)
        = fun _ => 2 := by
  have h := innerProductLayer_call_canonical 1 1
    [fun _ _ => 1, fun _ _ => 2, fun _ _ => 3] (by decide)
  refine ⟨by decide, by simpa using h.1, ?_⟩
  rw [h.2.2 0 (by rw [h.1]; decide)]
  funext t
  show (∑ k : Fin 1, (1 : ℚ) * 2) = 2
  norm_num

/-- Zipping a list with the all-`c` list of the same length tags every element
with `c`. -/
theorem zip_replicate_self {α β : Type} (l : List α) (c : β) :
    l.zip (List.replicate l.length c) = l.map (fun a => (a, c)) := by
  induction l with
  | nil => rfl
  | cons x xs ih => simp [List.replicate_succ, ih]

/-- C3: For every list of N ≥ 2 identically shaped `(batch, 1, embedding_dim)`
inputs, `OutterProductLayer` with `kernel_type = 'num'` and its kernel weight
fixed to all ones produces the same output tensor as `InnerProductLayer` with
`reduce_sum = true` on identical inputs. -/
theorem outterProductLayer_num_ones_eq_inner (b d : ℕ)
    (inputs : List (Fin b → Fin d → ℚ)) (kernel : List ℚ)
    (h2 : 2 ≤ inputs.length)
    (hker : kernel = List.replicate (pairs inputs.length).length 1) :
    outterProductLayer_call_num b d inputs kernel = innerProductLayer_call b d inputs := by
  clear h2
  subst hker
  unfold outterProductLayer_call_num innerProductLayer_call
  rw [zip_replicate_self, List.map_map]
  apply List.map_eq_map_iff.mpr
  intro ij _
  funext t
  show (∑ k, inputs.getD ij.1 (zeroEmb b d) t k * inputs.getD ij.2 (zeroEmb b d) t k * 1) = _
  simp [mul_one]

/-- Witness for C3 on two concrete inputs with batch = embedding_dim = 1 and
the all-ones kernel for the single pair. -/
theorem outterProductLayer_num_ones_eq_inner_witness :
    2 ≤ ([fun _ _ => 2, fun _ _ => 3] : List (Fin 1 → Fin 1 → ℚ)).length
    ∧ ([(1 : ℚ)] = List.replicate (pairs ([fun _ _ => 2, fun _ _ => 3] :
        List (Fin 1 → Fin 1 → ℚ)).length).length 1)
    ∧ outterProductLayer_call_num 1 1 [fun _ _ => 2, fun _ _ => 3] [1]
        = innerProductLayer_call 1 1 [fun _ _ => 2, fun _ _ => 3] :=
  ⟨by decide, rfl,
    outterProductLayer_num_ones_eq_inner 1 1 [fun _ _ => 2, fun _ _ => 3] [1]
      (by decide) rfl⟩

/-- Descriptor of the initializer argument the code passes to `add_weight`:
the initializer family and the seed it was constructed with (`none` when the
initializer takes no seed, e.g. `Zeros`).  A seeded initializer is
deterministic: it draws the same values whenever family, seed and weight shape
coincide, so equal descriptors for equally shaped weights force equal initial
values. -/
structure WeightInit where
  family : String
  seed : Option ℕ
deriving DecidableEq

/-- Shallow embedding of the kernel allocation in `CrossNet.build`
(layers.py lines 222-226): one `(dim, 1)` kernel per cross layer, every one
constructed with `initializer = glorot_normal(seed = self.seed)`. -/
def crossNet_build_kernelInits (seed : ℕ) (layer_num : ℕ) : List WeightInit :=
  (List.range layer_num).map (fun _ => ⟨"glorot_normal", some seed⟩)

/-- Shallow embedding of the bias allocation in `CrossNet.build`
(layers.py lines 227-230): one `(dim, 1)` bias per cross layer, every one
initialized with `Zeros()`. -/
def crossNet_build_biasInits (layer_num : ℕ) : List WeightInit :=
  (List.range layer_num).map (fun _ => ⟨"zeros", none⟩)

/-- Counterexample to C6 at seed 1024, layer_num 2: both kernels are created
from the very same initializer descriptor `glorot_normal(seed = 1024)` and
have the same `(dim, 1)` shape, so their initial values are constrained to be
identical — no pair of kernels is independently initialized. -/
theorem crossNet_build_kernelInits_identical :
    crossNet_build_kernelInits 1024 2
      = [⟨"glorot_normal", some 1024⟩, ⟨"glorot_normal", some 1024⟩]
    ∧ (crossNet_build_kernelInits 1024 2).getD 0 ⟨"", none⟩
      = (crossNet_build_kernelInits 1024 2).getD 1 ⟨"", none⟩ := by
  constructor <;> rfl

/-- C6 (amended): after `CrossNet.build`, all `layer_num` kernels carry the
same initializer descriptor `glorot_normal(seed = self.seed)` — the seed is
not varied per layer, so every kernel is constrained to the same initial
values rather than being independently initialized. -/
theorem crossNet_build_kernelInits_all_same (seed layer_num : ℕ) :
    crossNet_build_kernelInits seed layer_num
      = List.replicate layer_num ⟨"glorot_normal", some seed⟩ := by
  unfold crossNet_build_kernelInits
  apply List.eq_replicate_iff.mpr
  constructor
  · simp
  · intro w hw
    rcases List.mem_map.mp hw with ⟨i, _, rfl⟩
    rfl

/-- Shallow embedding of one iteration of the loop in `CrossNet.call`
(layers.py lines 241-245) with the degenerate trailing axis squeezed:
`dot_[o][i] = Σ_j x0[o][i] * xl[o][j] * kernel[j]`, then
`x_l ← dot_ + x_l + bias`. -/
def crossNetStep (b dim : ℕ) (x0 : Fin b → Fin dim → ℚ) (xl : Fin b → Fin dim → ℚ)
    (kernel : Fin dim → ℚ) (bias : Fin dim → ℚ) : Fin b → Fin dim → ℚ :=
  fun o i => (∑ j, x0 o i * xl o j * kernel j) + xl o i + bias i

/-- Shallow embedding of `CrossNet.call` (layers.py lines 233-247): the state
`x_l` starts at the input `x_0` and is folded through the per-layer kernels
and biases in order. -/
def crossNet_call (b dim : ℕ) (params : List ((Fin dim → ℚ) × (Fin dim → ℚ)))
    (x : Fin b → Fin dim → ℚ) : Fin b → Fin dim → ℚ :=
  params.foldl (fun xl kb => crossNetStep b dim x xl kb.1 kb.2) x

/-- C7: For every rank-2 input tensor (batch, dim), CrossNet with
`layer_num = 1`, zero kernel and zero bias returns its input unchanged. -/
theorem crossNet_call_one_zero_id (b dim : ℕ) (x : Fin b → Fin dim → ℚ) :
    crossNet_call b dim [(fun _ => 0, fun _ => 0)] x = x := by
  funext o i
  show (∑ j, x o i * x o j * (0 : ℚ)) + x o i + 0 = x o i
  simp

/-- Descriptor of an operation constructed inside a layer's `call`, carrying
exactly the randomness-relevant arguments the Python code passes:
`dropoutRate` is keras `Dropout(rate)` (optional seed argument, `none` when
the code passes no seed), `dropoutKeep` is `tf.nn.dropout(x, keep_prob, seed)`
(TF1 keep-probability semantics), `dense` is a `Dense(units, activation)`
layer with the seed of its kernel initializer (`none` when the code leaves
the default, unseeded initializer). -/
inductive NNOp where
  | dropoutRate (rate : ℚ) (seed : Option ℕ)
  | dropoutKeep (keepProb : ℚ) (seed : Option ℕ)
  | dense (units : ℕ) (activ : Option String) (kernelSeed : Option ℕ)
  | batchNorm
  | activation (name : String)
deriving DecidableEq

/-- Shallow embedding of the operation sequence `MLP.call` constructs
(layers.py lines 292-312): `Dropout(1 - keep_prob)` on the raw input — built
with NO seed argument — then per hidden size a `Dense` whose kernel
initializer is `glorot_normal(seed = self.seed)`, optional
`BatchNormalization`, the activation, and another unseeded
`Dropout(1 - keep_prob)`. -/
def MLP_call_ops (hidden_size : List ℕ) (activ : String) (keep_prob : ℚ)
    (use_bn : Bool) (seed : ℕ) : List NNOp :=
  NNOp.dropoutRate (1 - keep_prob) none ::
    hidden_size.flatMap (fun units =>
      [NNOp.dense units none (some seed)]
        ++ (if use_bn then [NNOp.batchNorm] else [])
        ++ [NNOp.activation activ, NNOp.dropoutRate (1 - keep_prob) none])

/-- C5 (code evaluation): every dropout operation `MLP.call` constructs — the
input dropout and the per-hidden-layer dropouts — carries NO seed: the
configured seed reaches only the `Dense` kernel initializers, so with
`keep_prob < 1` the dropout masks are drawn from the global RNG and runs are
not reproducible, contradicting the claim. -/
theorem MLP_call_ops_dropout_not_seeded (hidden_size : List ℕ) (activ : String)
    (keep_prob : ℚ) (use_bn : Bool) (seed : ℕ) :
    (MLP_call_ops hidden_size activ keep_prob use_bn seed).head?
        = some (NNOp.dropoutRate (1 - keep_prob) none)
    ∧ ∀ r s, NNOp.dropoutRate r s ∈ MLP_call_ops hidden_size activ keep_prob use_bn seed →
        s = none := by
  refine ⟨rfl, ?_⟩
  intro r s hmem
  unfold MLP_call_ops at hmem
  rcases List.mem_cons.mp hmem with h | h
  · simp only [NNOp.dropoutRate.injEq] at h
    exact h.2
  · rcases List.mem_flatMap.mp h with ⟨units, _, hmem2⟩
    cases use_bn <;> simp_all

/-- Shallow embedding of the operation sequence `AFMLayer.call` constructs
(layers.py lines 113-140): the attention `Dense(attention_factor, 'relu')`
(default, unseeded kernel initializer), the softmax over the pair axis, and
`tf.nn.dropout(attention_output, self.keep_prob, seed=1024)` — the literal
constant 1024, not `self.seed`. -/
def AFMLayer_call_ops (attention_factor : ℕ) (l2_reg_w : ℚ) (keep_prob : ℚ)
    (seed : ℕ) : List NNOp :=
  [NNOp.dense attention_factor (some "relu") none,
   NNOp.activation "softmax",
   NNOp.dropoutKeep keep_prob (some 1024)]

/-- C9: the dropout applied to the pooled attention output of `AFMLayer.call`
uses the fixed constant seed 1024; two instances differing only in the
constructor's seed parameter build identical call operations, so that
parameter has no effect on the dropout randomness. -/
theorem AFMLayer_call_dropout_seed_constant (attention_factor : ℕ)
    (l2_reg_w keep_prob : ℚ) (s1 s2 : ℕ) :
    AFMLayer_call_ops attention_factor l2_reg_w keep_prob s1
        = AFMLayer_call_ops attention_factor l2_reg_w keep_prob s2
    ∧ NNOp.dropoutKeep keep_prob (some 1024)
        ∈ AFMLayer_call_ops attention_factor l2_reg_w keep_prob s1 := by
  refine ⟨rfl, ?_⟩
  simp [AFMLayer_call_ops]

/-- Shallow embedding of the shape validation of `AFMLayer.build`
(layers.py lines 80-99), which runs before any weight allocation or forward
computation.  A static shape is a list of per-axis sizes, `none` for the
unknown batch axis.  Errors are the `ValueError` messages of the source
(the spec's ShapeError taxonomy). -/
def AFMLayer_build_check (input_shape : List (List (Option ℕ))) : Except String Unit :=
  if input_shape.length < 2 then
    Except.error "A `AttentionalFM` layer should be called on a list of at least 2 inputs"
  else if 1 < input_shape.dedup.length then
    Except.error "A `AttentionalFM` layer requires inputs with same shapes"
  else if (input_shape.getD 0 []).length ≠ 3 ∨ (input_shape.getD 0 []).getD 1 none ≠ some 1 then
    Except.error "A `AttentionalFM` layer requires inputs of a list with same shape tensor like (None,1,embedding_size)"
  else
    Except.ok ()

/-- C8: `AFMLayer` raises its ShapeError synchronously at build time whenever
it is given fewer than 2 inputs, before any forward computation, with the
message identifying the violated at-least-2-inputs precondition. -/
theorem AFMLayer_build_lt_two_inputs_error (input_shape : List (List (Option ℕ)))
    (h : input_shape.length < 2) :
    AFMLayer_build_check input_shape
      = Except.error "A `AttentionalFM` layer should be called on a list of at least 2 inputs" := by
  unfold AFMLayer_build_check
  rw [if_pos h]

/-- Witness for C8: a single `(None, 1, 4)` input makes build fail with the
at-least-2-inputs message. -/
theorem AFMLayer_build_lt_two_inputs_error_witness :
    ([[none, some 1, some 4]] : List (List (Option ℕ))).length < 2
    ∧ AFMLayer_build_check [[none, some 1, some 4]]
        = Except.error "A `AttentionalFM` layer should be called on a list of at least 2 inputs" :=
  ⟨by decide, AFMLayer_build_lt_two_inputs_error _ (by decide)⟩

/-- The construction arguments of `LocalActivationUnit.__init__`
(layers.py lines 606-613): all six are required, none has a default. -/
structure LAUArgs where
  hidden_size : List ℕ
  activation : String
  l2_reg : ℚ
  keep_prob : ℚ
  use_bn : Bool
  seed : ℕ
deriving DecidableEq

/-- The hyperparameter dictionary exported by
`LocalActivationUnit.get_config` (layers.py lines 649-652): it contains the
keys `activation`, `hidden_size`, `l2_reg`, `keep_prob` and `seed` — and no
`use_bn` key. -/
structure LAUConfig where
  activation : String
  hidden_size : List ℕ
  l2_reg : ℚ
  keep_prob : ℚ
  seed : ℕ
deriving DecidableEq

/-- Shallow embedding of `LocalActivationUnit.get_config`: the exported
dictionary is built from every constructor argument except `use_bn`. -/
def localActivationUnit_get_config (a : LAUArgs) : LAUConfig :=
  ⟨a.activation, a.hidden_size, a.l2_reg, a.keep_prob, a.seed⟩

/-- C4 (code evaluation at the failing input): two `LocalActivationUnit`
constructions that differ only in `use_bn` export identical configurations,
so no reconstruction function from the exported configuration can recover
both constructions — the configuration round-trip cannot reproduce the layer
(and hence its forward outputs, which route through `MLP`'s
batch-normalization switch) across both values of `use_bn`. -/
theorem localActivationUnit_get_config_loses_use_bn :
    localActivationUnit_get_config ⟨[8], "sigmoid", 0, 1, true, 1024⟩
        = localActivationUnit_get_config ⟨[8], "sigmoid", 0, 1, false, 1024⟩
    ∧ (⟨[8], "sigmoid", 0, 1, true, 1024⟩ : LAUArgs)
        ≠ (⟨[8], "sigmoid", 0, 1, false, 1024⟩ : LAUArgs)
    ∧ ∀ rebuild : LAUConfig → LAUArgs,
        ¬(rebuild (localActivationUnit_get_config ⟨[8], "sigmoid", 0, 1, true, 1024⟩)
              = ⟨[8], "sigmoid", 0, 1, true, 1024⟩
          ∧ rebuild (localActivationUnit_get_config ⟨[8], "sigmoid", 0, 1, false, 1024⟩)
              = ⟨[8], "sigmoid", 0, 1, false, 1024⟩) := by
  have hconf : localActivationUnit_get_config ⟨[8], "sigmoid", 0, 1, true, 1024⟩
      = localActivationUnit_get_config ⟨[8], "sigmoid", 0, 1, false, 1024⟩ := rfl
  have hargs : (⟨[8], "sigmoid", 0, 1, true, 1024⟩ : LAUArgs)
      ≠ (⟨[8], "sigmoid", 0, 1, false, 1024⟩ : LAUArgs) := by
    intro h
    simpa using congrArg LAUArgs.use_bn h
  refine ⟨hconf, hargs, ?_⟩
  intro rebuild ⟨h1, h2⟩
  rw [hconf] at h1
  exact hargs (h1.symm.trans h2)

/-- Row-major flattening index: entry `(i, j)` of a `(b, k)` tensor sits at
row `i * k + j` of its `reshape(-1, 1)`. -/
def flatIdx (b k : ℕ) (i : Fin b) (j : Fin k) : Fin (b * k) :=
  ⟨i.1 * k + j.1, by
    calc i.1 * k + j.1 < i.1 * k + k := by omega
      _ = (i.1 + 1) * k := by ring
      _ ≤ b * k := Nat.mul_le_mul_right k i.2⟩

/-- Shallow embedding of `PredictionLayer.call` with `use_bias = false`
(layers.py lines 170-181): apply the activation elementwise, then
`K.reshape(output, (-1, 1))` flattens the `(batch, k)` tensor row-major into
a single column of `batch * k` rows (represented as `Fin (b * k) → ℚ`). -/
def predictionLayer_call_noBias (b k : ℕ) (activ : ℚ → ℚ)
    (x : Fin b → Fin k → ℚ) : Fin (b * k) → ℚ :=
  fun m => activ (x m.divNat m.modNat)

/-- C10: For every rank-2 input of shape `(batch, k)` with `use_bias = false`,
`PredictionLayer.call` returns a `(batch * k, 1)` column: the reshape to
`(-1, 1)` puts element `(i, j)` at row `i * k + j`, so the output's first
dimension is the total element count `b * k`, which differs from the batch
size whenever `k > 1`. -/
theorem predictionLayer_call_noBias_flattens (b k : ℕ) (activ : ℚ → ℚ)
    (x : Fin b → Fin k → ℚ) (i : Fin b) (j : Fin k) :
    predictionLayer_call_noBias b k activ x (flatIdx b k i j) = activ (x i j)
    ∧ (1 < k → b * k ≠ b) := by
  constructor
  · have hd : (flatIdx b k i j).divNat = i := by
      apply Fin.ext
      rw [Fin.coe_divNat]
      show (i.1 * k + j.1) / k = i.1
      rw [add_comm, Nat.add_mul_div_right _ _ j.pos, Nat.div_eq_of_lt j.2]
      omega
    have hm : (flatIdx b k i j).modNat = j := by
      apply Fin.ext
      rw [Fin.coe_modNat]
      show (i.1 * k + j.1) % k = j.1
      rw [add_comm, Nat.add_mul_mod_self_right, Nat.mod_eq_of_lt j.2]
    unfold predictionLayer_call_noBias
    rw [hd, hm]
  · intro hk
    have hb : 0 < b := i.pos
    have h2 : b * 2 ≤ b * k := Nat.mul_le_mul_left b hk
    omega

/-- Witness for C10 at `b = 2`, `k = 3`, identity activation, constant input:
the flattened entry evaluates and `2 * 3 ≠ 2`. -/
theorem predictionLayer_call_noBias_flattens_witness :
    predictionLayer_call_noBias 2 3 (fun q => q) (fun _ _ => 5) (flatIdx 2 3 0 1) = 5
    ∧ 2 * 3 ≠ 2 :=
  ⟨(predictionLayer_call_noBias_flattens 2 3 (fun q => q) (fun _ _ => 5) 0 1).1,
    (predictionLayer_call_noBias_flattens 2 3 (fun q => q) (fun _ _ => 5) 0 1).2 (by decide)⟩

/-- Witness for C5 at a concrete configuration (hidden_size [32], relu,
keep_prob 1/2, no batch norm, seed 1024): the unseeded input dropout is in
the constructed operation list. -/
theorem MLP_call_ops_dropout_not_seeded_witness :
    (NNOp.dropoutRate (1 - 1/2) none ∈ MLP_call_ops [32] "relu" (1/2) false 1024)
    ∧ (none : Option ℕ) = none :=
  ⟨by simp [MLP_call_ops],
    (MLP_call_ops_dropout_not_seeded [32] "relu" (1/2) false 1024).2 (1 - 1/2) none
      (by simp [MLP_call_ops])⟩

/-- Witness for C4: even the reconstruction that guesses `use_bn = false`
fails to round-trip both constructions. -/
theorem localActivationUnit_get_config_loses_use_bn_witness :
    ¬((fun c : LAUConfig =>
          (⟨c.hidden_size, c.activation, c.l2_reg, c.keep_prob, false, c.seed⟩ : LAUArgs))
            (localActivationUnit_get_config ⟨[8], "sigmoid", 0, 1, true, 1024⟩)
          = ⟨[8], "sigmoid", 0, 1, true, 1024⟩
      ∧ (fun c : LAUConfig =>
          (⟨c.hidden_size, c.activation, c.l2_reg, c.keep_prob, false, c.seed⟩ : LAUArgs))
            (localActivationUnit_get_config ⟨[8], "sigmoid", 0, 1, false, 1024⟩)
          = ⟨[8], "sigmoid", 0, 1, false, 1024⟩) :=
  localActivationUnit_get_config_loses_use_bn.2.2
    (fun c => ⟨c.hidden_size, c.activation, c.l2_reg, c.keep_prob, false, c.seed⟩)
